import Mathlib

/-!
Verification of the `alertas` news-alert backend against its specification.

The development shallowly embeds the Python sources (`backend/news_poller.py`,
`backend/main.py`) into Lean: pure helper functions become Lean functions,
the mutable history buffer and the poll loop become explicit state passing,
and Python dicts flowing over the WebSocket become association lists.
-/

namespace NewsAlert

set_option maxRecDepth 16384

/-! ## Python string primitives

Models of the Python `str` operations used by the sources.  Python's
`str.strip()` removes leading/trailing whitespace; we model the ASCII
whitespace characters (space, tab, newline, carriage return, vertical tab,
form feed).  `str.lower()` is modelled on ASCII letters, which covers every
comparison the sources perform.
-/

def pyWS (c : Char) : Bool :=
  c == ' ' || c == '\t' || c == '\n' || c == '\r' || c == Char.ofNat 11 || c == Char.ofNat 12

def stripChars (cs : List Char) : List Char :=
  ((cs.dropWhile pyWS).reverse.dropWhile pyWS).reverse

/-- Model of Python `str.strip()`. -/
def pstrip (s : String) : String := ⟨stripChars s.data⟩

/-- Model of Python `str.lower()` (ASCII letters). -/
def plower (s : String) : String := ⟨s.data.map Char.toLower⟩

/-- Model of Python `str.startswith(p)`. -/
def hasPref (p s : String) : Bool := List.isPrefixOf p.data s.data

/-! ## JSON-like event objects

Events flow through the system as Python dicts and are serialized to the
WebSocket clients key-by-key (`ws.send_json(evt)` in `backend/main.py`).
We model a dict as an association list in insertion order; values are either
strings or arrays of strings (the only shapes the sources produce).
-/

inductive JValue where
  | str : String → JValue
  | arr : List String → JValue
deriving DecidableEq

abbrev JObj := List (String × JValue)

/-- Model of `evt.get(k)` followed by `or ""`: the string value of key `k`,
or the empty string when the key is absent (or not a string). -/
def jget (e : JObj) (k : String) : String :=
  match e.lookup k with
  | some (JValue.str s) => s
  | _ => ""

/-! ## Language normalization (`news_poller.normalize_lang`) -/

/-- Embedding of `normalize_lang` from `backend/news_poller.py`:
empty input gives `"unk"`; otherwise the input is stripped and lowercased,
mapped to `"es"`/`"en"` for Spanish/English spellings, else passed through. -/
def normalize_lang (lang : String) : String :=
  if lang = "" then "unk"
  else
    let l := plower (pstrip lang)
    if hasPref "es" l || l == "spanish" then "es"
    else if hasPref "en" l || l == "english" then "en"
    else l

/-- The language normalization as the (amended) specification words it:
a nonempty string whose trimmed lowercased form starts with `es` or equals
`spanish` maps to `es`; likewise for `en`/`english`; the empty string maps
to `unk`; any other string maps to itself trimmed and lowercased. -/
def normalize_lang_spec (lang : String) : String :=
  if lang = "" then "unk"
  else if hasPref "es" (plower (pstrip lang)) || plower (pstrip lang) == "spanish" then "es"
  else if hasPref "en" (plower (pstrip lang)) || plower (pstrip lang) == "english" then "en"
  else plower (pstrip lang)

/-! ## Classification (`news_poller.classify`)

The five classification rules are Python regexes applied with `re.I`:

* `RE_GOV_STAKE = \b(government|state)\b.*\b(stake|equity|share)\b`
* `RE_CEO_RESIGN = \b(CEO|CFO)\b.*\b(resigns?|steps down|resignation)\b`
* `RE_MA = \b(acquisition|acquire|acquired|merger|merging|combine)\b`
* `RE_EARNINGS = \b(earnings|guidance|EPS|revenue)\b`
* `RE_CONTRACT = \b(contract|award|offtake|MoU)\b`

Every alternative is a literal word (the one `?` makes `resign`/`resigns`
two literals), so `re.search` truth is: some occurrence of a group-1 word,
delimited by word boundaries, followed — with no intervening newline, since
`.` does not match `\n` — by some occurrence of a group-2 word, again with
word boundaries.  Case-insensitivity is modelled by lowercasing the title
and storing the pattern words lowercased.  `\w` is modelled over ASCII.
-/

def isWordChar (c : Char) : Bool := c.isAlphanum || c == '_'

/-- A word boundary holds before a word character when the previous
character is absent or not a word character. -/
def boundaryOk (prev : Option Char) : Bool :=
  match prev with
  | none => true
  | some c => !isWordChar c

/-- Match the literal `w` at the head of `cs`, returning the remainder. -/
def headMatch : List Char → List Char → Option (List Char)
  | [], cs => some cs
  | _ :: _, [] => none
  | w :: ws, c :: cs => if w == c then headMatch ws cs else none

/-- Does the remainder after a word start with a word boundary? -/
def afterOk : List Char → Bool
  | [] => true
  | c :: _ => !isWordChar c

/-- Does some alternative of `ws` match at the head of `cs` with word
boundaries on both sides (`prev` is the character before `cs`)? -/
def wordHere (ws : List (List Char)) (prev : Option Char) (cs : List Char) : Bool :=
  ws.any fun w =>
    match headMatch w cs with
    | some rest => boundaryOk prev && afterOk rest
    | none => false

/-- First alternative of `ws` matching at the head of `cs` with boundaries;
returns its last character and the remainder. -/
def groupHere : List (List Char) → Option Char → List Char → Option (Char × List Char)
  | [], _, _ => none
  | w :: ws, prev, cs =>
    match headMatch w cs with
    | some rest =>
      if boundaryOk prev && afterOk rest then some (w.getLastD ' ', rest)
      else groupHere ws prev cs
    | none => groupHere ws prev cs

/-- Search for a boundary-delimited occurrence of some word of `ws`. -/
def searchOne (ws : List (List Char)) : Option Char → List Char → Bool
  | _, [] => false
  | prev, c :: cs => wordHere ws prev (c :: cs) || searchOne ws (some c) cs

/-- Search for a boundary-delimited occurrence of some word of `ws`
without crossing a newline (models the `.*` between the two groups). -/
def searchNoNL (ws : List (List Char)) : Option Char → List Char → Bool
  | _, [] => false
  | prev, c :: cs => wordHere ws prev (c :: cs) || (!(c == '\n') && searchNoNL ws (some c) cs)

/-- Search for `\b(ws1)\b.*\b(ws2)\b`. -/
def searchSeq (ws1 ws2 : List (List Char)) : Option Char → List Char → Bool
  | _, [] => false
  | prev, c :: cs =>
    (match groupHere ws1 prev (c :: cs) with
     | some (lc, rest) => searchNoNL ws2 (some lc) rest
     | none => false)
    || searchSeq ws1 ws2 (some c) cs

def govWords1 : List (List Char) := ["government".data, "state".data]
def govWords2 : List (List Char) := ["stake".data, "equity".data, "share".data]
def ceoWords1 : List (List Char) := ["ceo".data, "cfo".data]
def ceoWords2 : List (List Char) :=
  ["resigns".data, "resign".data, "steps down".data, "resignation".data]
def maWords : List (List Char) :=
  ["acquisition".data, "acquire".data, "acquired".data, "merger".data,
   "merging".data, "combine".data]
def earnWords : List (List Char) := ["earnings".data, "guidance".data, "eps".data, "revenue".data]
def contractWords : List (List Char) := ["contract".data, "award".data, "offtake".data, "mou".data]

/-- The title lowercased, as a character list (models matching with `re.I`). -/
def lowerData (title : String) : List Char := title.data.map Char.toLower

/-- Embedding of `classify` from `backend/news_poller.py`: the ordered
first-match-wins rule chain. -/
def classify (title : String) : String :=
  let t := lowerData title
  if searchSeq govWords1 govWords2 none t then "GovStake"
  else if searchSeq ceoWords1 ceoWords2 none t then "CEOResignation"
  else if searchOne maWords none t then "M&A"
  else if searchOne earnWords none t then "Earnings"
  else if searchOne contractWords none t then "Contract"
  else "News"

/-! ## Ticker extraction (`news_poller.guess_tickers`) -/

def STOP_UPPER : List String :=
  ["THE", "AND", "FOR", "WITH", "FROM", "THIS", "THAT", "WAS", "WILL", "HAVE", "HAS",
   "USA", "US", "CEO", "CFO", "DOE", "DOD", "IPO", "ETF", "FDA", "SEC", "EU", "UK",
   "LITHIUM", "OIL", "GAS", "BANK", "NEWS", "MERGER", "ACQUISITION", "Q1", "Q2", "Q3", "Q4"]

/-- Maximal runs of word characters of `cs` (`acc` holds the current run
reversed).  `UPPER_TOKEN.findall` returns exactly the runs that are all
uppercase `A`–`Z` of length 2–5, since a boundary cannot sit inside a run. -/
def wordRunsAux : List Char → List Char → List (List Char)
  | [], acc => if acc.isEmpty then [] else [acc.reverse]
  | c :: cs, acc =>
    if isWordChar c then wordRunsAux cs (c :: acc)
    else if acc.isEmpty then wordRunsAux cs []
    else acc.reverse :: wordRunsAux cs []

/-- Model of `UPPER_TOKEN.findall(title)` with `UPPER_TOKEN = \b[A-Z]{2,5}\b`. -/
def upperTokens (title : String) : List String :=
  ((wordRunsAux title.data []).filter fun r =>
    decide (2 ≤ r.length) && decide (r.length ≤ 5) && r.all Char.isUpper).map
    fun r => ⟨r⟩

/-- The accumulation loop of `guess_tickers`: skip stoplisted tokens, keep
first occurrences of tokens of length 2–5. -/
def tickersLoop : List String → List String → List String
  | [], _ => []
  | t :: ts, seen =>
    if t ∈ STOP_UPPER then tickersLoop ts seen
    else if t ∉ seen ∧ 2 ≤ t.length ∧ t.length ≤ 5 then t :: tickersLoop ts (t :: seen)
    else tickersLoop ts seen

/-- Embedding of `guess_tickers` from `backend/news_poller.py`. -/
def guess_tickers (title : String) : List String :=
  (tickersLoop (upperTokens title) []).take 6

/-! ## Timestamp normalization (`news_poller.to_iso_utc`)

`to_iso_utc` tries, in order, `datetime.strptime(s, "%Y%m%d%H%M%S")`,
`datetime.fromisoformat(s.replace(" ", "T"))` and
`email.utils.parsedate_to_datetime(s)` and falls back to
`datetime.utcnow()`.  We embed a datetime value as explicit calendar
fields plus an optional UTC offset in minutes (`none` models a naive
datetime).  The three stdlib parsers are modelled for the grammars they
accept on this code path: 14-digit compact timestamps, the strict ISO
`YYYY-MM-DD[ HH[:MM[:SS]]][±HH:MM]` shape, and RFC-2822 dates with
4-digit years.  `astimezone(timezone.utc)` is modelled by exact calendar
arithmetic; as in Python, a naive datetime is interpreted in the local
timezone, which we pass in as an explicit offset `localOff`, and the
current time `now` is likewise an explicit parameter. -/

structure PDateTime where
  year : Nat
  month : Nat
  day : Nat
  hour : Nat
  minute : Nat
  second : Nat
  tzOffset : Option Int
deriving DecidableEq

def digitsToNat (cs : List Char) : Nat :=
  cs.foldl (fun n c => n * 10 + (c.toNat - 48)) 0

def isLeap (y : Nat) : Bool := y % 4 == 0 && (y % 100 != 0 || y % 400 == 0)

def daysInMonth (y m : Nat) : Nat :=
  if m == 2 then (if isLeap y then 29 else 28)
  else if m == 4 || m == 6 || m == 9 || m == 11 then 30
  else 31

/-- The field validation performed by the `datetime` constructor. -/
def validDate (y m d : Nat) : Bool :=
  decide (1 ≤ y) && decide (y ≤ 9999) && decide (1 ≤ m) && decide (m ≤ 12) &&
  decide (1 ≤ d) && decide (d ≤ daysInMonth y m)

def validTime (h mi s : Nat) : Bool :=
  decide (h ≤ 23) && decide (mi ≤ 59) && decide (s ≤ 59)

/-- Model of `datetime.strptime(s, "%Y%m%d%H%M%S")` on the compact
14-digit GDELT form (4-digit year, 2 digits per remaining field). -/
def parseCompact (s : String) : Option PDateTime :=
  let cs := s.data
  if cs.length == 14 && cs.all Char.isDigit then
    let y := digitsToNat (cs.take 4)
    let mo := digitsToNat ((cs.drop 4).take 2)
    let d := digitsToNat ((cs.drop 6).take 2)
    let h := digitsToNat ((cs.drop 8).take 2)
    let mi := digitsToNat ((cs.drop 10).take 2)
    let se := digitsToNat ((cs.drop 12).take 2)
    if validDate y mo d && validTime h mi se then some ⟨y, mo, d, h, mi, se, none⟩ else none
  else none

def parseNDigits (n : Nat) (cs : List Char) : Option (Nat × List Char) :=
  let pre := cs.take n
  if pre.length == n && pre.all Char.isDigit then some (digitsToNat pre, cs.drop n) else none

def expectChar (c : Char) : List Char → Option (List Char)
  | x :: xs => if x == c then some xs else none
  | [] => none

/-- Offset tail `HH:MM` (consuming the whole remainder), in minutes. -/
def parseOffTail (cs : List Char) : Option Int :=
  match parseNDigits 2 cs with
  | some (oh, r1) =>
    match expectChar ':' r1 with
    | some r2 =>
      match parseNDigits 2 r2 with
      | some (om, []) => if oh ≤ 23 && om ≤ 59 then some ((oh : Int) * 60 + (om : Int)) else none
      | _ => none
    | none => none
  | none => none

/-- Time-of-day `HH[:MM[:SS]]`, returning the remainder. -/
def parseHMS (cs : List Char) : Option (Nat × Nat × Nat × List Char) :=
  match parseNDigits 2 cs with
  | none => none
  | some (h, r) =>
    match expectChar ':' r with
    | none => some (h, 0, 0, r)
    | some r1 =>
      match parseNDigits 2 r1 with
      | none => none
      | some (mi, r2) =>
        match expectChar ':' r2 with
        | none => some (h, mi, 0, r2)
        | some r3 =>
          match parseNDigits 2 r3 with
          | none => none
          | some (se, r4) => some (h, mi, se, r4)

/-- Trailing timezone part: empty means naive, `±HH:MM` gives an offset. -/
def parseTZ : List Char → Option (Option Int)
  | [] => some none
  | '+' :: r => (parseOffTail r).map fun o => some o
  | '-' :: r => (parseOffTail r).map fun o => some (-o)
  | _ => none

/-- Model of `datetime.fromisoformat`: `YYYY-MM-DD`, optionally followed by
one separator character and `HH[:MM[:SS]][±HH:MM]`. -/
def fromisoformat (s : String) : Option PDateTime :=
  match parseNDigits 4 s.data with
  | none => none
  | some (y, r1) =>
    match expectChar '-' r1 with
    | none => none
    | some r2 =>
      match parseNDigits 2 r2 with
      | none => none
      | some (mo, r3) =>
        match expectChar '-' r3 with
        | none => none
        | some r4 =>
          match parseNDigits 2 r4 with
          | none => none
          | some (d, r5) =>
            match r5 with
            | [] => if validDate y mo d then some ⟨y, mo, d, 0, 0, 0, none⟩ else none
            | _ :: r6 =>
              match parseHMS r6 with
              | none => none
              | some (h, mi, se, r7) =>
                match parseTZ r7 with
                | none => none
                | some off =>
                  if validDate y mo d && validTime h mi se then
                    some ⟨y, mo, d, h, mi, se, off⟩
                  else none

/-- Model of `date_str.replace(" ", "T")`. -/
def replSpace (s : String) : String :=
  ⟨s.data.map fun c => if c == ' ' then 'T' else c⟩

/-- Split on Python whitespace (models `str.split()`), accumulator reversed. -/
def splitWSAux : List Char → List Char → List (List Char)
  | [], acc => if acc.isEmpty then [] else [acc.reverse]
  | c :: cs, acc =>
    if pyWS c then
      (if acc.isEmpty then splitWSAux cs [] else acc.reverse :: splitWSAux cs [])
    else splitWSAux cs (c :: acc)

def tokensOf (s : String) : List String :=
  (splitWSAux s.data []).map fun l => ⟨l⟩

def monthAbbrevs : List String :=
  ["jan", "feb", "mar", "apr", "may", "jun", "jul", "aug", "sep", "oct", "nov", "dec"]

def monthFulls : List String :=
  ["january", "february", "march", "april", "may", "june", "july", "august",
   "september", "october", "november", "december"]

def monthNum (t : String) : Option Nat :=
  let l := plower t
  match monthAbbrevs.findIdx? (fun x => x == l) with
  | some i => some (i + 1)
  | none =>
    match monthFulls.findIdx? (fun x => x == l) with
    | some i => some (i + 1)
    | none => none

def dayNames : List String := ["mon", "tue", "wed", "thu", "fri", "sat", "sun"]

/-- RFC-2822 zone token: `±HHMM` numeric offsets (in minutes) or the
UTC names recognized by `email.utils`; anything else leaves the result naive. -/
def zoneOf (t : String) : Option Int :=
  let u := plower t
  if u == "ut" || u == "utc" || u == "gmt" || u == "z" then some 0
  else
    match t.data with
    | s :: rest =>
      if (s == '+' || s == '-') && rest.length == 4 && rest.all Char.isDigit then
        let v : Int := ((digitsToNat (rest.take 2)) * 60 + digitsToNat (rest.drop 2) : Nat)
        some (if s == '-' then -v else v)
      else none
    | [] => none

def parseDayTok (t : String) : Option Nat :=
  let cs := t.data
  if (cs.length == 1 || cs.length == 2) && cs.all Char.isDigit then some (digitsToNat cs)
  else none

def parseYearTok (t : String) : Option Nat :=
  let cs := t.data
  if cs.length == 4 && cs.all Char.isDigit then some (digitsToNat cs) else none

/-- Split a token at `:` characters. -/
def splitColonAux : List Char → List Char → List (List Char)
  | [], acc => [acc.reverse]
  | c :: cs, acc => if c == ':' then acc.reverse :: splitColonAux cs [] else splitColonAux cs (c :: acc)

def parseTimeTok (t : String) : Option (Nat × Nat × Nat) :=
  let parts := splitColonAux t.data []
  let num := fun (cs : List Char) =>
    if (cs.length == 1 || cs.length == 2) && cs.all Char.isDigit then some (digitsToNat cs)
    else none
  match parts with
  | [a, b] =>
    match num a, num b with
    | some h, some mi => some (h, mi, 0)
    | _, _ => none
  | [a, b, c] =>
    match num a, num b, num c with
    | some h, some mi, some se => some (h, mi, se)
    | _, _, _ => none
  | _ => none

/-- Model of `email.utils.parsedate_to_datetime` for RFC-2822 dates
`[Day,] DD Mon YYYY HH:MM[:SS] [zone]` with 4-digit years. -/
def parseRfc2822 (s : String) : Option PDateTime :=
  let toks := tokensOf s
  let toks :=
    match toks with
    | t :: rest =>
      if t.data.getLast? == some ',' || plower t ∈ dayNames then rest else toks
    | [] => toks
  let build := fun (dayT monT yearT timeT : String) (off : Option Int) =>
    match parseDayTok dayT, monthNum monT, parseYearTok yearT, parseTimeTok timeT with
    | some d, some mo, some y, some (h, mi, se) =>
      if validDate y mo d && validTime h mi se then some (⟨y, mo, d, h, mi, se, off⟩ : PDateTime)
      else none
    | _, _, _, _ => none
  match toks with
  | [dayT, monT, yearT, timeT] => build dayT monT yearT timeT none
  | [dayT, monT, yearT, timeT, zT] => build dayT monT yearT timeT (zoneOf zT)
  | _ => none

/-- Days since 1970-01-01 of a civil date (Hinnant's `days_from_civil`). -/
def daysFromCivil (y m d : Int) : Int :=
  let y2 := y - (if m ≤ 2 then 1 else 0)
  let era := (if 0 ≤ y2 then y2 else y2 - 399) / 400
  let yoe := y2 - era * 400
  let mp := (m + 9) % 12
  let doy := (153 * mp + 2) / 5 + d - 1
  let doe := yoe * 365 + yoe / 4 - yoe / 100 + doy
  era * 146097 + doe - 719468

/-- Civil date from days since 1970-01-01 (Hinnant's `civil_from_days`). -/
def civilFromDays (z0 : Int) : Int × Int × Int :=
  let z := z0 + 719468
  let era := (if 0 ≤ z then z else z - 146096) / 146097
  let doe := z - era * 146097
  let yoe := (doe - doe / 1460 + doe / 36524 - doe / 146096) / 365
  let y := yoe + era * 400
  let doy := doe - (365 * yoe + yoe / 4 - yoe / 100)
  let mp := (5 * doy + 2) / 153
  let d := doy - (153 * mp + 2) / 5 + 1
  let m := mp + (if mp < 10 then 3 else -9)
  (y + (if m ≤ 2 then 1 else 0), m, d)

/-- Model of `dt.astimezone(timezone.utc)`: convert to UTC using the
datetime's own offset, or the local offset `localOff` when it is naive. -/
def utcOf (localOff : Int) (dt : PDateTime) : PDateTime :=
  let off := dt.tzOffset.getD localOff
  let total : Int :=
    daysFromCivil (dt.year : Int) (dt.month : Int) (dt.day : Int) * 1440 +
      (dt.hour : Int) * 60 + (dt.minute : Int) - off
  let days := total.ediv 1440
  let rem := total.emod 1440
  let c := civilFromDays days
  ⟨c.1.toNat, c.2.1.toNat, c.2.2.toNat, (rem / 60).toNat, (rem % 60).toNat, dt.second, some 0⟩

def pad2 (n : Nat) : String := if n < 10 then "0" ++ toString n else toString n

def pad4 (n : Nat) : String :=
  if n < 10 then "000" ++ toString n
  else if n < 100 then "00" ++ toString n
  else if n < 1000 then "0" ++ toString n
  else toString n

/-- Python's rendering of a fixed UTC-offset `tzinfo` in `isoformat`. -/
def offsetStr (off : Int) : String :=
  let a := off.natAbs
  (if off < 0 then "-" else "+") ++ pad2 (a / 60) ++ ":" ++ pad2 (a % 60)

def tzSuffix : Option Int → String
  | none => ""
  | some off => offsetStr off

/-- The date-time core of `datetime.isoformat()` (microseconds are zero
everywhere on this code path). -/
def isoCore (dt : PDateTime) : String :=
  pad4 dt.year ++ "-" ++ pad2 dt.month ++ "-" ++ pad2 dt.day ++ "T" ++
    pad2 dt.hour ++ ":" ++ pad2 dt.minute ++ ":" ++ pad2 dt.second

/-- Model of `datetime.isoformat()`. -/
def isoformat (dt : PDateTime) : String := isoCore dt ++ tzSuffix dt.tzOffset

/-- Embedding of `iso_now_utc` from `backend/news_poller.py`; the current
UTC time is the explicit parameter `now`. -/
def iso_now_utc (now : PDateTime) : String :=
  isoformat ⟨now.year, now.month, now.day, now.hour, now.minute, now.second, none⟩ ++ "Z"

/-- Embedding of `to_iso_utc` from `backend/news_poller.py`. -/
def to_iso_utc (now : PDateTime) (localOff : Int) (date_str : String) : String :=
  if date_str = "" then iso_now_utc now
  else
    match parseCompact date_str with
    | some dt => isoformat dt ++ "Z"
    | none =>
      match fromisoformat (replSpace date_str) with
      | some dt =>
        match dt.tzOffset with
        | none => isoformat dt ++ "Z"
        | some _ => isoformat (utcOf localOff dt)
      | none =>
        match parseRfc2822 date_str with
        | some dt => isoformat (utcOf localOff dt)
        | none => iso_now_utc now

/-! ## The poll loop (`news_poller.poll_news`)

A normalized row as returned by `gdelt_client.fetch_csv`: the five
canonical string fields.  The body of `poll_news` re-strips each field,
derives the language (falling back to `safe_detect_lang` on the title when
the feed gives none — the detector is passed in as the function `detect`),
computes the cross-cycle dedup key `url or f"{title}|{date}"`, and builds
the event dict in the literal key order of the source. -/

structure Row where
  date : String
  title : String
  url : String
  domain : String
  language : String
deriving DecidableEq

/-- The per-row dedup key of the poll loop (line
`dedup_key = url or f"{title}|{date}"` of `backend/news_poller.py`),
computed from the stripped raw fields. -/
def pollKey (r : Row) : String :=
  let title := pstrip r.title
  let url := pstrip r.url
  let date := pstrip r.date
  if url = "" then title ++ "|" ++ date else url

/-- Embedding of the event construction in the body of `poll_news`
(`backend/news_poller.py`, the `event = {...}` dict literal). -/
def enrich (detect : String → String) (now : PDateTime) (localOff : Int) (r : Row) : JObj :=
  let title := pstrip r.title
  let url := pstrip r.url
  let date := pstrip r.date
  let domain := plower (pstrip r.domain)
  let lang_raw := plower (pstrip r.language)
  let lang := if lang_raw ≠ "" then normalize_lang lang_raw else normalize_lang (detect title)
  [("headline", JValue.str (if title = "" then "(sin título)" else title)),
   ("summary", JValue.str (if domain = "" then "" else "Fuente: " ++ domain)),
   ("tickers", JValue.arr (guess_tickers title)),
   ("category", JValue.str (classify title)),
   ("url", JValue.str url),
   ("ts", JValue.str (to_iso_utc now localOff date)),
   ("domain", JValue.str domain),
   ("language", JValue.str lang)]

/-- The synthetic seed event `poll_news` enqueues on entry. -/
def seedEvent (now : PDateTime) : JObj :=
  [("headline", JValue.str "✅ Fuente conectada (seed de prueba)"),
   ("summary", JValue.str "WS y UI OK — filtros en el FRONT"),
   ("tickers", JValue.arr ["TEST"]),
   ("category", JValue.str "Info"),
   ("url", JValue.str ""),
   ("ts", JValue.str (iso_now_utc now)),
   ("domain", JValue.str ""),
   ("language", JValue.str "es")]

def POLL_INTERVAL_SEC : Nat := 30

/-- State of the poll loop across cycles: the process-lifetime `seen` set
and the current backoff interval in seconds. -/
structure PollState where
  seen : Finset String
  backoff : Nat
deriving DecidableEq

/-- The per-row loop of a successful cycle: skip rows whose dedup key is
empty or already seen, otherwise record the key and emit the enriched
event. -/
def processRows (detect : String → String) (now : PDateTime) (localOff : Int) :
    List Row → Finset String → List JObj × Finset String
  | [], seen => ([], seen)
  | r :: rs, seen =>
    let key := pollKey r
    if key = "" ∨ key ∈ seen then processRows detect now localOff rs seen
    else
      let rest := processRows detect now localOff rs (insert key seen)
      (enrich detect now localOff r :: rest.1, rest.2)

/-- One iteration of the `while True` loop of `poll_news`: `none` models a
raised fetch exception (no events, backoff doubled and capped at 300),
`some rows` a successful fetch (rows processed, backoff reset to the base
interval). -/
def pollCycle (detect : String → String) (now : PDateTime) (localOff : Int)
    (res : Option (List Row)) (s : PollState) : List JObj × PollState :=
  match res with
  | none => ([], ⟨s.seen, min (s.backoff * 2) 300⟩)
  | some rows =>
    let pr := processRows detect now localOff rows s.seen
    (pr.1, ⟨pr.2, POLL_INTERVAL_SEC⟩)

/-- The poll-loop state after a sequence of cycle outcomes, starting from
the empty seen-set and the base interval. -/
def pollRun (detect : String → String) (now : PDateTime) (localOff : Int)
    (results : List (Option (List Row))) : PollState :=
  results.foldl (fun s res => (pollCycle detect now localOff res s).2) ⟨∅, POLL_INTERVAL_SEC⟩

/-! ## The history buffer (`main._dedup_key`, `main._push_history`) -/

def MAX_HISTORY : Nat := 300

/-- Embedding of `_dedup_key` from `backend/main.py`: the stripped `url`
if non-empty, else `headline|ts` (the `ts` key, falling back to a
`timestamp` key when `ts` is absent or empty). -/
def dedup_key (evt : JObj) : String :=
  let title := pstrip (jget evt "headline")
  let ts := pstrip (if jget evt "ts" = "" then jget evt "timestamp" else jget evt "ts")
  let url := pstrip (jget evt "url")
  if url = "" then title ++ "|" ++ ts else url

/-- The history buffer state: the ordered event list `_history` and the
key set `_seen_keys` of `backend/main.py`. -/
structure Hist where
  history : List JObj
  seen : Finset String
deriving DecidableEq

/-- The `while len(_history) > MAX_HISTORY` eviction loop of
`_push_history`: pop the oldest element and discard its key. -/
def trimHist : List JObj → Finset String → List JObj × Finset String
  | [], ks => ([], ks)
  | old :: rest, ks =>
    if MAX_HISTORY < (old :: rest).length then trimHist rest (ks.erase (dedup_key old))
    else (old :: rest, ks)

/-- Embedding of `_push_history` from `backend/main.py`.  The Python
function returns `None`; the `Bool` records which control path ran — the
early return (event not retained) versus append-then-trim (event
retained), i.e. the `insert -> bool` observable of the specification. -/
def push_history (evt : JObj) (s : Hist) : Bool × Hist :=
  let key := dedup_key evt
  if key = "" ∨ key ∈ s.seen then (false, s)
  else
    let p := trimHist (s.history ++ [evt]) (insert key s.seen)
    (true, ⟨p.1, p.2⟩)

/-- The buffer after inserting a sequence of events into the empty buffer
(as the broadcaster task does, one queue item at a time). -/
def pushAll (evts : List JObj) : Hist :=
  evts.foldl (fun s e => (push_history e s).2) ⟨[], ∅⟩

/-! ## Specification-side vocabulary used by the claims -/

/-- The wire keys the code actually emits, in dict-literal order. -/
def wireKeys : List String :=
  ["headline", "summary", "tickers", "category", "url", "ts", "domain", "language"]

/-- The field names claimed by the specification for the Event entity. -/
def claimedKeys : List String :=
  ["headline", "summary", "tickers", "category", "url", "timestamp", "domain", "language"]

/-- An ISO-8601 string with an explicit UTC designator: it ends in `Z` or
in the `+00:00` offset. -/
def UtcShaped (s : String) : Prop := (∃ t, s = t ++ "Z") ∨ (∃ t, s = t ++ "+00:00")

/-- The representation invariant tying `_seen_keys` to `_history`: the key
set is exactly the set of dedup keys of the stored events, those keys are
pairwise distinct, and the buffer is within capacity. -/
def HRep (s : Hist) : Prop :=
  s.seen = (s.history.map dedup_key).toFinset ∧
  (s.history.map dedup_key).Nodup ∧
  s.history.length ≤ MAX_HISTORY

/-- A fixed "current time" used by concrete witnesses. -/
def wNow : PDateTime := ⟨2026, 1, 2, 3, 4, 5, none⟩

/-- A concrete event used by witnesses: url-keyed, so its dedup key is `"u"`. -/
def wEvtU : JObj := [("url", JValue.str "u")]

/-- Events with pairwise distinct one-character urls, for filled-buffer
witnesses (codepoints 65 and up avoid whitespace). -/
def wEvtN (i : Nat) : JObj := [("url", JValue.str ⟨[Char.ofNat (65 + i)]⟩)]

/-- A buffer at exactly full capacity, for the FIFO-eviction witness. -/
def wHist300 : Hist := ⟨List.replicate 300 (wEvtN 0), ∅⟩

/-- A concrete row with a non-empty url. -/
def wRow : Row := ⟨"20250926195022", "T", "http://x.com/a", "x.com", "en"⟩

/-- A concrete row with an empty url (and empty domain). -/
def wRowNoUrl : Row := ⟨"20250926195022", "X", "", "", "en"⟩

/-! ## Helper lemmas -/

theorem dropWhile_head_false (p : Char → Bool) (l : List Char) :
    ∀ a, (l.dropWhile p).head? = some a → p a = false := by
  induction l with
  | nil => intro a h; simp [List.dropWhile] at h
  | cons c cs ih =>
    intro a h
    rw [List.dropWhile_cons] at h
    by_cases hc : p c = true
    · exact ih a (by simpa [hc] using h)
    · rw [if_neg hc] at h
      simp only [List.head?_cons, Option.some.injEq] at h
      rw [← h]
      exact Bool.eq_false_iff.mpr hc

theorem dropWhile_self (p : Char → Bool) (l : List Char)
    (h : ∀ a, l.head? = some a → p a = false) : l.dropWhile p = l := by
  cases l with
  | nil => rfl
  | cons c cs => simp [List.dropWhile_cons, h c rfl]

theorem stripChars_decomp (cs : List Char) :
    ∃ t, stripChars cs ++ t = cs.dropWhile pyWS := by
  refine ⟨((cs.dropWhile pyWS).reverse.takeWhile pyWS).reverse, ?_⟩
  unfold stripChars
  rw [← List.reverse_append, List.takeWhile_append_dropWhile, List.reverse_reverse]

theorem stripChars_head (cs : List Char) :
    ∀ a, (stripChars cs).head? = some a → pyWS a = false := by
  intro a h
  obtain ⟨t, ht⟩ := stripChars_decomp cs
  apply dropWhile_head_false pyWS cs a
  rw [← ht]
  cases hsc : stripChars cs with
  | nil => rw [hsc] at h; cases h
  | cons x xs =>
    rw [hsc] at h
    simp only [List.head?_cons, Option.some.injEq] at h
    simp [← h]

theorem stripChars_last (cs : List Char) :
    ∀ a, (stripChars cs).getLast? = some a → pyWS a = false := by
  intro a h
  have h2 : ((cs.dropWhile pyWS).reverse.dropWhile pyWS).head? = some a := by
    have := List.getLast?_reverse ((cs.dropWhile pyWS).reverse.dropWhile pyWS)
    rw [← this]
    exact h
  exact dropWhile_head_false pyWS (cs.dropWhile pyWS).reverse a h2

theorem stripChars_idem (cs : List Char) : stripChars (stripChars cs) = stripChars cs := by
  have h1 : (stripChars cs).dropWhile pyWS = stripChars cs :=
    dropWhile_self _ _ (stripChars_head cs)
  have h2 : (stripChars cs).reverse.dropWhile pyWS = (stripChars cs).reverse := by
    apply dropWhile_self
    intro a ha
    rw [List.head?_reverse] at ha
    exact stripChars_last cs a ha
  show (((stripChars cs).dropWhile pyWS).reverse.dropWhile pyWS).reverse = stripChars cs
  rw [h1, h2, List.reverse_reverse]

theorem pstrip_idem (s : String) : pstrip (pstrip s) = pstrip s :=
  congrArg String.mk (stripChars_idem s.data)

theorem sdata_append (a b : String) : (a ++ b).data = a.data ++ b.data := rfl

theorem dedup_key_ne_empty (evt : JObj) : dedup_key evt ≠ "" := by
  unfold dedup_key
  by_cases hu : pstrip (jget evt "url") = ""
  · simp only [hu, if_pos rfl]
    intro h
    have h2 := congrArg String.data h
    simp [sdata_append] at h2
  · simp only [if_neg hu]
    exact hu

theorem trimHist_cons_pos (old : JObj) (rest : List JObj) (ks : Finset String)
    (h : MAX_HISTORY < (old :: rest).length) :
    trimHist (old :: rest) ks = trimHist rest (ks.erase (dedup_key old)) := by
  simp only [trimHist]
  rw [if_pos h]

theorem trimHist_cons_neg (old : JObj) (rest : List JObj) (ks : Finset String)
    (h : ¬ MAX_HISTORY < (old :: rest).length) :
    trimHist (old :: rest) ks = (old :: rest, ks) := by
  simp only [trimHist]
  rw [if_neg h]

theorem trimHist_rep : ∀ (l : List JObj) (ks : Finset String),
    ks = (l.map dedup_key).toFinset → (l.map dedup_key).Nodup →
    (trimHist l ks).2 = ((trimHist l ks).1.map dedup_key).toFinset ∧
    ((trimHist l ks).1.map dedup_key).Nodup ∧ (trimHist l ks).1.length ≤ MAX_HISTORY := by
  intro l
  induction l with
  | nil =>
    intro ks h1 h2
    refine ⟨?_, ?_, ?_⟩ <;> simp [trimHist, h1]
  | cons old rest ih =>
    intro ks h1 h2
    have hnd : (dedup_key old :: rest.map dedup_key).Nodup := by simpa using h2
    by_cases hlen : MAX_HISTORY < (old :: rest).length
    · rw [trimHist_cons_pos old rest ks hlen]
      apply ih
      · subst h1
        simp only [List.map_cons, List.toFinset_cons]
        rw [Finset.erase_insert]
        rw [List.mem_toFinset]
        exact (List.nodup_cons.mp hnd).1
      · exact (List.nodup_cons.mp hnd).2
    · rw [trimHist_cons_neg old rest ks hlen]
      exact ⟨h1, h2, Nat.not_lt.mp hlen⟩

theorem trimHist_suffix : ∀ (l : List JObj) (ks : Finset String),
    ∃ t, l = t ++ (trimHist l ks).1 := by
  intro l
  induction l with
  | nil => intro ks; exact ⟨[], rfl⟩
  | cons old rest ih =>
    intro ks
    by_cases hlen : MAX_HISTORY < (old :: rest).length
    · obtain ⟨t, ht⟩ := ih (ks.erase (dedup_key old))
      refine ⟨old :: t, ?_⟩
      rw [trimHist_cons_pos old rest ks hlen, List.cons_append, ← ht]
    · exact ⟨[], by simp [trimHist_cons_neg old rest ks hlen]⟩

theorem trimHist_ne_nil : ∀ (l : List JObj) (ks : Finset String),
    l ≠ [] → (trimHist l ks).1 ≠ [] := by
  intro l
  induction l with
  | nil => intro ks h; exact absurd rfl h
  | cons old rest ih =>
    intro ks _
    by_cases hlen : MAX_HISTORY < (old :: rest).length
    · have hr : rest ≠ [] := by
        intro h0
        subst h0
        simp [MAX_HISTORY] at hlen
      rw [trimHist_cons_pos old rest ks hlen]
      exact ih _ hr
    · rw [trimHist_cons_neg old rest ks hlen]
      simp

theorem trimHist_of_le (l : List JObj) (ks : Finset String) (h : l.length ≤ MAX_HISTORY) :
    trimHist l ks = (l, ks) := by
  cases l with
  | nil => rfl
  | cons a t => exact trimHist_cons_neg a t ks (Nat.not_lt.mpr h)

theorem push_history_rep (evt : JObj) (s : Hist) (h : HRep s) : HRep (push_history evt s).2 := by
  obtain ⟨h1, h2, h3⟩ := h
  by_cases hc : dedup_key evt = "" ∨ dedup_key evt ∈ s.seen
  · have : push_history evt s = (false, s) := by
      unfold push_history
      rw [if_pos hc]
    rw [this]
    exact ⟨h1, h2, h3⟩
  · push_neg at hc
    have hpush : (push_history evt s).2 =
        ⟨(trimHist (s.history ++ [evt]) (insert (dedup_key evt) s.seen)).1,
         (trimHist (s.history ++ [evt]) (insert (dedup_key evt) s.seen)).2⟩ := by
      unfold push_history
      rw [if_neg (by push_neg; exact hc)]
    rw [hpush]
    have hnotin : dedup_key evt ∉ s.history.map dedup_key := by
      intro hmem
      exact hc.2 (by rw [h1, List.mem_toFinset]; exact hmem)
    have hnd : ((s.history ++ [evt]).map dedup_key).Nodup := by
      rw [List.map_append]
      rw [List.nodup_append]
      exact ⟨h2, List.nodup_singleton _, by simpa [List.disjoint_singleton] using hnotin⟩
    have hset : insert (dedup_key evt) s.seen = ((s.history ++ [evt]).map dedup_key).toFinset := by
      rw [h1]
      ext x
      simp [or_comm]
    exact trimHist_rep (s.history ++ [evt]) (insert (dedup_key evt) s.seen) hset hnd

theorem pushAll_rep (evts : List JObj) : HRep (pushAll evts) := by
  suffices h : ∀ s, HRep s → HRep (evts.foldl (fun s e => (push_history e s).2) s) from
    h ⟨[], ∅⟩ ⟨by simp, by simp, by simp [MAX_HISTORY]⟩
  induction evts with
  | nil => intro s hs; exact hs
  | cons e es ih => intro s hs; exact ih _ (push_history_rep e s hs)

/-! ## Claims -/

/-- C1: after any sequence of inserts into the History Buffer, no two
stored elements share a Dedup Key, the stored sequence never exceeds the
capacity `MAX_HISTORY = 300`, and its length equals the size of the key
set. -/
theorem history_invariant (evts : List JObj) :
    ((pushAll evts).history.map dedup_key).Nodup ∧
    (pushAll evts).history.length ≤ MAX_HISTORY ∧
    (pushAll evts).history.length = (pushAll evts).seen.card := by
  obtain ⟨h1, h2, h3⟩ := pushAll_rep evts
  refine ⟨h2, h3, ?_⟩
  rw [h1, List.toFinset_card_of_nodup h2, List.length_map]

/-- C3: inserting an event whose Dedup Key is already present leaves the
buffer unchanged and is reported "not retained"; inserting a fresh-keyed
event is reported "retained" and appends it at the newest end. -/
theorem push_history_idempotent (evt : JObj) (s : Hist) :
    (dedup_key evt ∈ s.seen → push_history evt s = (false, s)) ∧
    (dedup_key evt ∉ s.seen →
      (push_history evt s).1 = true ∧
      ∃ t, (push_history evt s).2.history = t ++ [evt]) := by
  constructor
  · intro h
    unfold push_history
    rw [if_pos (Or.inr h)]
  · intro h
    have hne := dedup_key_ne_empty evt
    have hpush1 : (push_history evt s).1 = true := by
      unfold push_history
      rw [if_neg (by push_neg; exact ⟨hne, h⟩)]
    have hpush2 : (push_history evt s).2.history =
        (trimHist (s.history ++ [evt]) (insert (dedup_key evt) s.seen)).1 := by
      unfold push_history
      rw [if_neg (by push_neg; exact ⟨hne, h⟩)]
    refine ⟨hpush1, ?_⟩
    obtain ⟨t0, ht0⟩ := trimHist_suffix (s.history ++ [evt]) (insert (dedup_key evt) s.seen)
    have hnn : (trimHist (s.history ++ [evt]) (insert (dedup_key evt) s.seen)).1 ≠ [] :=
      trimHist_ne_nil _ _ (by simp)
    have hlast : (trimHist (s.history ++ [evt]) (insert (dedup_key evt) s.seen)).1.getLast? =
        some evt := by
      have h1 : (s.history ++ [evt]).getLast? = some evt := by
        rw [List.getLast?_append_cons]
        rfl
      rw [ht0, List.getLast?_append_of_ne_nil t0 hnn] at h1
      exact h1
    refine ⟨(trimHist (s.history ++ [evt]) (insert (dedup_key evt) s.seen)).1.dropLast, ?_⟩
    rw [hpush2]
    exact (List.dropLast_append_getLast? evt hlast).symm

/-- Witness for C3 at concrete inputs: a fresh insert into the empty buffer
is retained and appended; re-inserting the same event is a no-op reported
"not retained". -/
theorem push_history_idempotent_witness :
    (dedup_key wEvtU ∉ (⟨[], ∅⟩ : Hist).seen ∧
      (push_history wEvtU ⟨[], ∅⟩).1 = true ∧
      ∃ t, (push_history wEvtU ⟨[], ∅⟩).2.history = t ++ [wEvtU]) ∧
    (dedup_key wEvtU ∈ (push_history wEvtU ⟨[], ∅⟩).2.seen ∧
      push_history wEvtU (push_history wEvtU ⟨[], ∅⟩).2 =
        (false, (push_history wEvtU ⟨[], ∅⟩).2)) :=
  ⟨⟨by decide, (push_history_idempotent wEvtU ⟨[], ∅⟩).2 (by decide)⟩,
   ⟨by decide, (push_history_idempotent wEvtU (push_history wEvtU ⟨[], ∅⟩).2).1 (by decide)⟩⟩

/-- C4: inserting a fresh-keyed event into a buffer at capacity evicts
exactly the oldest element and removes its key from the key set; the
eviction depends only on the insertion order of the buffer. -/
theorem push_history_fifo (evt : JObj) (s : Hist)
    (hlen : s.history.length = MAX_HISTORY) (hfresh : dedup_key evt ∉ s.seen) :
    ∃ old t, s.history = old :: t ∧
      (push_history evt s).2.history = t ++ [evt] ∧
      (push_history evt s).2.seen = (insert (dedup_key evt) s.seen).erase (dedup_key old) ∧
      dedup_key old ∉ (push_history evt s).2.seen := by
  obtain ⟨old, t, hht⟩ : ∃ old t, s.history = old :: t := by
    cases hh : s.history with
    | nil => rw [hh] at hlen; simp [MAX_HISTORY] at hlen
    | cons a l => exact ⟨a, l, rfl⟩
  have hne := dedup_key_ne_empty evt
  have htl : t.length = 299 := by
    rw [hht] at hlen
    simp only [List.length_cons, MAX_HISTORY] at hlen
    omega
  have hpush : (push_history evt s).2 =
      ⟨(trimHist (s.history ++ [evt]) (insert (dedup_key evt) s.seen)).1,
       (trimHist (s.history ++ [evt]) (insert (dedup_key evt) s.seen)).2⟩ := by
    unfold push_history
    rw [if_neg (by push_neg; exact ⟨hne, hfresh⟩)]
  have htrim : trimHist (s.history ++ [evt]) (insert (dedup_key evt) s.seen) =
      (t ++ [evt], (insert (dedup_key evt) s.seen).erase (dedup_key old)) := by
    rw [hht, List.cons_append]
    have hgt : MAX_HISTORY < (old :: (t ++ [evt])).length := by
      simp [htl, MAX_HISTORY]
    rw [trimHist_cons_pos old (t ++ [evt]) (insert (dedup_key evt) s.seen) hgt]
    exact trimHist_of_le _ _ (by simp [htl, MAX_HISTORY])
  refine ⟨old, t, hht, ?_, ?_, ?_⟩
  · rw [hpush, htrim]
  · rw [hpush, htrim]
  · rw [hpush, htrim]
    exact Finset.not_mem_erase _ _

/-- Witness for C4: a buffer holding 300 events receives a fresh-keyed
event; the oldest element is evicted. -/
theorem push_history_fifo_witness :
    (wHist300.history.length = MAX_HISTORY ∧ dedup_key (wEvtN 1) ∉ wHist300.seen) ∧
    (∃ old t, wHist300.history = old :: t ∧
      (push_history (wEvtN 1) wHist300).2.history = t ++ [wEvtN 1] ∧
      (push_history (wEvtN 1) wHist300).2.seen =
        (insert (dedup_key (wEvtN 1)) wHist300.seen).erase (dedup_key old) ∧
      dedup_key old ∉ (push_history (wEvtN 1) wHist300).2.seen) :=
  ⟨⟨by simp [wHist300, MAX_HISTORY], by simp [wHist300]⟩,
   push_history_fifo (wEvtN 1) wHist300 (by simp [wHist300, MAX_HISTORY]) (by simp [wHist300])⟩

/-- C2, counterexample: for a row with an empty url the Poll Loop keys on
the raw `title|date` while the History Buffer keys the resulting Event on
`headline|normalized timestamp`, so the two derivations disagree. -/
theorem poll_vs_history_key_counterexample :
    pollKey wRowNoUrl = "X|20250926195022" ∧
    dedup_key (enrich (fun _ => "en") wNow 0 wRowNoUrl) = "X|2025-09-26T19:50:22Z" ∧
    pollKey wRowNoUrl ≠ dedup_key (enrich (fun _ => "en") wNow 0 wRowNoUrl) := by
  refine ⟨by decide, by decide, ?_⟩
  intro h
  rw [show pollKey wRowNoUrl = "X|20250926195022" by decide] at h
  rw [show dedup_key (enrich (fun _ => "en") wNow 0 wRowNoUrl) = "X|2025-09-26T19:50:22Z"
    by decide] at h
  exact absurd h (by decide)

/-- C2, amended: the History Buffer derives an Event's Dedup Key as the
url if non-empty, else `headline|timestamp`; the Poll Loop's cross-cycle
set keys a raw record by its url if non-empty, else raw `title|date`; the
two derivations agree on every record whose url is non-empty (both equal
the stripped url). -/
theorem poll_vs_history_key_agree (detect : String → String) (now : PDateTime) (loc : Int)
    (r : Row) (h : pstrip r.url ≠ "") :
    pollKey r = pstrip r.url ∧ pollKey r = dedup_key (enrich detect now loc r) := by
  have h1 : pollKey r = pstrip r.url := by
    unfold pollKey
    rw [if_neg h]
  refine ⟨h1, ?_⟩
  have h2 : jget (enrich detect now loc r) "url" = pstrip r.url := rfl
  unfold dedup_key
  rw [h2, pstrip_idem, if_neg h, h1]

/-- Witness for C2 (amended) at a concrete row with a non-empty url. -/
theorem poll_vs_history_key_agree_witness :
    pstrip wRow.url ≠ "" ∧
    (pollKey wRow = pstrip wRow.url ∧
      pollKey wRow = dedup_key (enrich (fun _ => "en") wNow 0 wRow)) :=
  ⟨by decide, poll_vs_history_key_agree (fun _ => "en") wNow 0 wRow (by decide)⟩

/-- C6, counterexample: the claim maps any unrecognized string to itself
lowercased, but the code also strips whitespace, so `" ru "` maps to
`"ru"`, not to its lowercased self. -/
theorem normalize_lang_counterexample :
    normalize_lang " ru " = "ru" ∧ plower " ru " = " ru " ∧ ("ru" : String) ≠ " ru " := by
  decide

/-- C6, amended: a nonempty string whose stripped lowercased form starts
with `es` or equals `spanish` maps to `es`; likewise `en`/`english` maps
to `en`; the empty string maps to `unk`; any other nonempty string maps to
itself stripped and lowercased.  The concrete examples of the claim all
hold. -/
theorem normalize_lang_amended :
    (∀ s, normalize_lang s = normalize_lang_spec s) ∧
    normalize_lang "es-ES" = "es" ∧ normalize_lang "English" = "en" ∧
    normalize_lang "en-GB" = "en" ∧ normalize_lang "ru" = "ru" ∧
    normalize_lang "" = "unk" :=
  ⟨fun _ => rfl, by decide, by decide, by decide, by decide, by decide⟩

/-- C7: `classify` tries the rules in order — government-stake, executive
resignation, M&A, earnings, contract — with first match winning and
`"News"` when none matches, and the claim's concrete examples hold. -/
theorem classify_rules :
    (∀ t, searchSeq govWords1 govWords2 none (lowerData t) = true →
      classify t = "GovStake") ∧
    (∀ t, searchSeq govWords1 govWords2 none (lowerData t) = false →
      searchSeq ceoWords1 ceoWords2 none (lowerData t) = true →
      classify t = "CEOResignation") ∧
    (∀ t, searchSeq govWords1 govWords2 none (lowerData t) = false →
      searchSeq ceoWords1 ceoWords2 none (lowerData t) = false →
      searchOne maWords none (lowerData t) = true →
      classify t = "M&A") ∧
    (∀ t, searchSeq govWords1 govWords2 none (lowerData t) = false →
      searchSeq ceoWords1 ceoWords2 none (lowerData t) = false →
      searchOne maWords none (lowerData t) = false →
      searchOne earnWords none (lowerData t) = true →
      classify t = "Earnings") ∧
    (∀ t, searchSeq govWords1 govWords2 none (lowerData t) = false →
      searchSeq ceoWords1 ceoWords2 none (lowerData t) = false →
      searchOne maWords none (lowerData t) = false →
      searchOne earnWords none (lowerData t) = false →
      searchOne contractWords none (lowerData t) = true →
      classify t = "Contract") ∧
    (∀ t, searchSeq govWords1 govWords2 none (lowerData t) = false →
      searchSeq ceoWords1 ceoWords2 none (lowerData t) = false →
      searchOne maWords none (lowerData t) = false →
      searchOne earnWords none (lowerData t) = false →
      searchOne contractWords none (lowerData t) = false →
      classify t = "News") ∧
    classify "CEO resigns amid pressure" = "CEOResignation" ∧
    classify "Acme to acquire Beta Corp" = "M&A" ∧
    classify "Company reports Q2 earnings beat" = "Earnings" := by
  refine ⟨?_, ?_, ?_, ?_, ?_, ?_, by decide, by decide, by decide⟩
  · intro t h1
    simp [classify, h1]
  · intro t h1 h2
    simp [classify, h1, h2]
  · intro t h1 h2 h3
    simp [classify, h1, h2, h3]
  · intro t h1 h2 h3 h4
    simp [classify, h1, h2, h3, h4]
  · intro t h1 h2 h3 h4 h5
    simp [classify, h1, h2, h3, h4, h5]
  · intro t h1 h2 h3 h4 h5
    simp [classify, h1, h2, h3, h4, h5]

/-- Witness for C7: each rule of the chain fires on a concrete title. -/
theorem classify_rules_witness :
    classify "Government takes stake in chipmaker" = "GovStake" ∧
    classify "CFO steps down at Acme" = "CEOResignation" ∧
    classify "Two firms plan merger" = "M&A" ∧
    classify "Revenue guidance raised" = "Earnings" ∧
    classify "Army award for Acme" = "Contract" ∧
    classify "Nothing much today" = "News" :=
  ⟨classify_rules.1 _ (by decide),
   classify_rules.2.1 _ (by decide) (by decide),
   classify_rules.2.2.1 _ (by decide) (by decide) (by decide),
   classify_rules.2.2.2.1 _ (by decide) (by decide) (by decide) (by decide),
   classify_rules.2.2.2.2.1 _ (by decide) (by decide) (by decide) (by decide) (by decide),
   classify_rules.2.2.2.2.2.1 _ (by decide) (by decide) (by decide) (by decide) (by decide)⟩

theorem isoformat_utcOf_shape (loc : Int) (dt : PDateTime) :
    ∃ t, isoformat (utcOf loc dt) = t ++ "+00:00" := by
  refine ⟨isoCore (utcOf loc dt), ?_⟩
  have h : (utcOf loc dt).tzOffset = some 0 := rfl
  rw [isoformat, h]
  have h2 : tzSuffix (some 0) = "+00:00" := by decide
  rw [h2]

/-- C5: `to_iso_utc` parses the compact 14-digit form, then the ISO form
(space or `T` separator, naive treated as UTC, aware converted to UTC),
then RFC-2822 (converted to UTC), first success winning; empty input and
unparseable input yield the current UTC time; every output carries an
explicit UTC designator; and `"20250926195022"` denotes
2025-09-26T19:50:22Z. -/
theorem to_iso_utc_spec (now : PDateTime) (loc : Int) :
    (to_iso_utc now loc "" = iso_now_utc now) ∧
    (∀ s dt, parseCompact s = some dt → to_iso_utc now loc s = isoformat dt ++ "Z") ∧
    (∀ s dt, parseCompact s = none → fromisoformat (replSpace s) = some dt →
      to_iso_utc now loc s =
        (match dt.tzOffset with
         | none => isoformat dt ++ "Z"
         | some _ => isoformat (utcOf loc dt))) ∧
    (∀ s dt, s ≠ "" → parseCompact s = none → fromisoformat (replSpace s) = none →
      parseRfc2822 s = some dt → to_iso_utc now loc s = isoformat (utcOf loc dt)) ∧
    (∀ s, s ≠ "" → parseCompact s = none → fromisoformat (replSpace s) = none →
      parseRfc2822 s = none → to_iso_utc now loc s = iso_now_utc now) ∧
    (∀ s, UtcShaped (to_iso_utc now loc s)) ∧
    (to_iso_utc now loc "20250926195022" = "2025-09-26T19:50:22Z") := by
  refine ⟨?_, ?_, ?_, ?_, ?_, ?_, by rfl⟩
  · simp [to_iso_utc]
  · intro s dt h
    have hs : s ≠ "" := by
      intro he
      subst he
      rw [(rfl : parseCompact "" = none)] at h
      cases h
    simp [to_iso_utc, hs, h]
  · intro s dt h1 h2
    have hs : s ≠ "" := by
      intro he
      subst he
      rw [(rfl : fromisoformat (replSpace "") = none)] at h2
      cases h2
    simp [to_iso_utc, hs, h1, h2]
  · intro s dt hs h1 h2 h3
    simp [to_iso_utc, hs, h1, h2, h3]
  · intro s hs h1 h2 h3
    simp [to_iso_utc, hs, h1, h2, h3]
  · intro s
    unfold to_iso_utc
    by_cases hs : s = ""
    · rw [if_pos hs]
      exact Or.inl ⟨_, rfl⟩
    · rw [if_neg hs]
      cases h1 : parseCompact s with
      | some dt => exact Or.inl ⟨_, rfl⟩
      | none =>
        cases h2 : fromisoformat (replSpace s) with
        | some dt =>
          cases h3 : dt.tzOffset with
          | none => simp only [h3]; exact Or.inl ⟨_, rfl⟩
          | some off => simp only [h3]; exact Or.inr (isoformat_utcOf_shape loc dt)
        | none =>
          cases h3 : parseRfc2822 s with
          | some dt => exact Or.inr (isoformat_utcOf_shape loc dt)
          | none => exact Or.inl ⟨_, rfl⟩

/-- Witness for C5: each parse branch and the fallback exercised on a
concrete input (an aware ISO timestamp is shifted to UTC, an RFC-2822
date is converted, unparseable input falls back to the current time). -/
theorem to_iso_utc_spec_witness :
    (parseCompact "20250926195022" = some ⟨2025, 9, 26, 19, 50, 22, none⟩ ∧
      to_iso_utc wNow 0 "20250926195022" =
        isoformat ⟨2025, 9, 26, 19, 50, 22, none⟩ ++ "Z") ∧
    (parseCompact "2025-09-26 19:50:22" = none ∧
      fromisoformat (replSpace "2025-09-26 19:50:22") = some ⟨2025, 9, 26, 19, 50, 22, none⟩ ∧
      to_iso_utc wNow 0 "2025-09-26 19:50:22" =
        isoformat ⟨2025, 9, 26, 19, 50, 22, none⟩ ++ "Z") ∧
    (fromisoformat (replSpace "2025-09-26 19:50:22+02:00") =
        some ⟨2025, 9, 26, 19, 50, 22, some 120⟩ ∧
      to_iso_utc wNow 0 "2025-09-26 19:50:22+02:00" =
        isoformat (utcOf 0 ⟨2025, 9, 26, 19, 50, 22, some 120⟩)) ∧
    (parseRfc2822 "Fri, 26 Sep 2025 19:50:22 +0000" =
        some ⟨2025, 9, 26, 19, 50, 22, some 0⟩ ∧
      to_iso_utc wNow 0 "Fri, 26 Sep 2025 19:50:22 +0000" =
        isoformat (utcOf 0 ⟨2025, 9, 26, 19, 50, 22, some 0⟩)) ∧
    (to_iso_utc wNow 0 "not a date" = iso_now_utc wNow) ∧
    (to_iso_utc wNow 0 "" = iso_now_utc wNow) :=
  ⟨⟨by decide, (to_iso_utc_spec wNow 0).2.1 "20250926195022" _ (by decide)⟩,
   ⟨by decide, by decide,
    (to_iso_utc_spec wNow 0).2.2.1 "2025-09-26 19:50:22" ⟨2025, 9, 26, 19, 50, 22, none⟩
      (by decide) (by decide)⟩,
   ⟨by decide,
    (to_iso_utc_spec wNow 0).2.2.1 "2025-09-26 19:50:22+02:00" ⟨2025, 9, 26, 19, 50, 22, some 120⟩
      (by decide) (by decide)⟩,
   ⟨by decide,
    (to_iso_utc_spec wNow 0).2.2.2.1 "Fri, 26 Sep 2025 19:50:22 +0000"
      ⟨2025, 9, 26, 19, 50, 22, some 0⟩ (by decide) (by decide) (by decide) (by decide)⟩,
   (to_iso_utc_spec wNow 0).2.2.2.2.1 "not a date" (by decide) (by decide) (by decide) (by decide),
   (to_iso_utc_spec wNow 0).1⟩

/-- C8, counterexample: the summary the code produces is prefixed
`"Fuente: "`, not `"Source: "` as the claim states. -/
theorem summary_counterexample :
    jget (enrich (fun _ => "en") wNow 0 wRow) "summary" = "Fuente: x.com" ∧
    jget (enrich (fun _ => "en") wNow 0 wRow) "summary" ≠ "Source: " ++ "x.com" := by
  constructor
  · decide
  · intro h
    rw [show jget (enrich (fun _ => "en") wNow 0 wRow) "summary" = "Fuente: x.com"
      by decide] at h
    exact absurd h (by decide)

/-- C8, amended: an enriched event's summary is `"Fuente: "` followed by
its domain when the domain is non-empty, and empty when the domain is
empty. -/
theorem summary_amended (detect : String → String) (now : PDateTime) (loc : Int) (r : Row) :
    (jget (enrich detect now loc r) "domain" = "" →
      jget (enrich detect now loc r) "summary" = "") ∧
    (jget (enrich detect now loc r) "domain" ≠ "" →
      jget (enrich detect now loc r) "summary" =
        "Fuente: " ++ jget (enrich detect now loc r) "domain") := by
  have hd : jget (enrich detect now loc r) "domain" = plower (pstrip r.domain) := rfl
  have hs : jget (enrich detect now loc r) "summary" =
      (if plower (pstrip r.domain) = "" then ""
       else "Fuente: " ++ plower (pstrip r.domain)) := rfl
  constructor
  · intro h
    rw [hd] at h
    rw [hs, if_pos h]
  · intro h
    rw [hd] at h
    rw [hs, if_neg h, hd]

/-- Witness for C8 (amended): a row with an empty domain yields an empty
summary; a row with domain `x.com` yields `"Fuente: x.com"`. -/
theorem summary_amended_witness :
    (jget (enrich (fun _ => "en") wNow 0 wRowNoUrl) "domain" = "" ∧
      jget (enrich (fun _ => "en") wNow 0 wRowNoUrl) "summary" = "") ∧
    (jget (enrich (fun _ => "en") wNow 0 wRow) "domain" ≠ "" ∧
      jget (enrich (fun _ => "en") wNow 0 wRow) "summary" =
        "Fuente: " ++ jget (enrich (fun _ => "en") wNow 0 wRow) "domain") :=
  ⟨⟨by decide, (summary_amended (fun _ => "en") wNow 0 wRowNoUrl).1 (by decide)⟩,
   ⟨by decide, (summary_amended (fun _ => "en") wNow 0 wRow).2 (by decide)⟩⟩

/-- C9, counterexample: the wire object's timestamp field is named `ts`,
not `timestamp` as the claim's field list states. -/
theorem wire_shape_counterexample :
    (enrich (fun _ => "en") wNow 0 wRow).map Prod.fst = wireKeys ∧
    (enrich (fun _ => "en") wNow 0 wRow).lookup "timestamp" = none ∧
    wireKeys ≠ claimedKeys := by
  refine ⟨rfl, rfl, ?_⟩
  decide

/-- C9, amended: every event object put on the queue (enriched events and
the seed event alike) carries exactly the eight fields `headline`,
`summary`, `tickers`, `category`, `url`, `ts`, `domain`, `language`, in
that order, with `tickers` an array of strings and every other field a
string. -/
theorem wire_shape_amended (detect : String → String) (now : PDateTime) (loc : Int) (r : Row) :
    (enrich detect now loc r).map Prod.fst = wireKeys ∧
    (seedEvent now).map Prod.fst = wireKeys ∧
    (∃ xs, (enrich detect now loc r).lookup "tickers" = some (JValue.arr xs)) ∧
    (∃ v, (enrich detect now loc r).lookup "headline" = some (JValue.str v)) ∧
    (∃ v, (enrich detect now loc r).lookup "summary" = some (JValue.str v)) ∧
    (∃ v, (enrich detect now loc r).lookup "category" = some (JValue.str v)) ∧
    (∃ v, (enrich detect now loc r).lookup "url" = some (JValue.str v)) ∧
    (∃ v, (enrich detect now loc r).lookup "ts" = some (JValue.str v)) ∧
    (∃ v, (enrich detect now loc r).lookup "domain" = some (JValue.str v)) ∧
    (∃ v, (enrich detect now loc r).lookup "language" = some (JValue.str v)) :=
  ⟨rfl, rfl, ⟨_, rfl⟩, ⟨_, rfl⟩, ⟨_, rfl⟩, ⟨_, rfl⟩, ⟨_, rfl⟩, ⟨_, rfl⟩, ⟨_, rfl⟩, ⟨_, rfl⟩⟩

theorem pollRun_backoff_aux (detect : String → String) (now : PDateTime) (loc : Int) :
    ∀ (results : List (Option (List Row))) (s : PollState),
      30 ≤ s.backoff → s.backoff ≤ 300 →
      30 ≤ (results.foldl (fun s res => (pollCycle detect now loc res s).2) s).backoff ∧
      (results.foldl (fun s res => (pollCycle detect now loc res s).2) s).backoff ≤ 300 := by
  intro results
  induction results with
  | nil => intro s h1 h2; exact ⟨h1, h2⟩
  | cons res rs ih =>
    intro s h1 h2
    apply ih
    · cases res with
      | none =>
        show 30 ≤ min (s.backoff * 2) 300
        exact Nat.le_min.mpr ⟨by omega, by omega⟩
      | some rows =>
        show 30 ≤ POLL_INTERVAL_SEC
        decide
    · cases res with
      | none =>
        show min (s.backoff * 2) 300 ≤ 300
        exact Nat.min_le_right _ _
      | some rows =>
        show POLL_INTERVAL_SEC ≤ 300
        decide

/-- C10: a failed fetch cycle emits no events and doubles the sleep
interval, capped at 300 seconds; a successful cycle resets it to the
30-second base; hence, starting from the base, the interval stays within
30–300 seconds after any sequence of cycle outcomes. -/
theorem poll_backoff (detect : String → String) (now : PDateTime) (loc : Int) :
    (∀ s, (pollCycle detect now loc none s).1 = [] ∧
      (pollCycle detect now loc none s).2.backoff = min (s.backoff * 2) 300) ∧
    (∀ rows s, (pollCycle detect now loc (some rows) s).2.backoff = POLL_INTERVAL_SEC) ∧
    (∀ results, 30 ≤ (pollRun detect now loc results).backoff ∧
      (pollRun detect now loc results).backoff ≤ 300) :=
  ⟨fun _ => ⟨rfl, rfl⟩, fun _ _ => rfl,
   fun results => pollRun_backoff_aux detect now loc results ⟨∅, POLL_INTERVAL_SEC⟩
     (by decide) (by decide)⟩

end NewsAlert
